import Mathlib

/-!
# Verification of the gopiq image-processing pipeline

Shallow embedding of the gopiq repository (`gopiq.go`, `formats.go`):
the pixel-buffer model, the sequential and parallel grayscale engines,
crop/resize, the processor state machine with its sticky first-error
latch, clone, and the byte-encoding boundary.

Pixel buffers are modelled as row-major lists of RGBA samples with
`stride = 4 * width` bytes, i.e. pixel `(x, y)` lives at list index
`y * width + x`, matching `image.NewRGBA` buffers whose bounds have
`Min = (0, 0)` (every buffer the library itself allocates is of this
shape, and the spec's §3 pixel-buffer model indexes pixels the same
way).  Channel samples are natural numbers; buffers produced by Go
always carry byte values `< 256`.

The grayscale kernel of the Go code is
`uint8(0.2126*float64(r) + 0.7152*float64(g) + 0.0722*float64(b))`,
evaluated in IEEE-754 binary64 arithmetic and then truncated by the
`uint8` conversion.  Every intermediate value of that expression lies
in `[0, 2^9)` and is an integer multiple of `2^-60`, so the whole
computation is embedded exactly: a binary64 value is represented by
its numerator when scaled by `2^60`, and each arithmetic step rounds
its exact result to 53 significant bits (round to nearest, ties to
even), exactly as the hardware does.
-/

/-- Fuel-driven floor of the base-2 logarithm, written with structural
recursion so that the kernel can evaluate it.  For every `n < 2 ^ fuel`
it agrees with the mathematical `⌊log₂ n⌋` (and returns `0` at `0`). -/
def nlog2 : Nat → Nat → Nat
  | 0, _ => 0
  | fuel + 1, n => if 2 ≤ n then nlog2 fuel (n / 2) + 1 else 0

/-- Round the fraction `a / b` (with `b > 0`) to the nearest integer,
ties to even — the IEEE-754 default rounding applied to a significand. -/
def rneDiv (a b : Nat) : Nat :=
  let f := a / b
  let r := a % b
  if 2 * r < b then f
  else if b < 2 * r then f + 1
  else if f % 2 = 0 then f else f + 1

/-- Round the exact value `n / 2^60` to the nearest IEEE-754 binary64
value (round to nearest, ties to even), returned in the same `/ 2^60`
scaling.  A value with at most 53 significant bits is already exactly
representable; otherwise the significand is rounded at the 53rd bit.
Valid on the range of the grayscale computation, `[0, 2^52)`, which is
far inside the normal binary64 range. -/
def roundDouble (n : Nat) : Nat :=
  let L := nlog2 200 n
  if L ≤ 52 then n
  else
    let d := L - 52
    rneDiv n (2 ^ d) * 2 ^ d

/-- The binary64 value nearest to the fraction `p / q`, scaled by
`2^60`: this is what a Go constant literal such as `0.2126` denotes
once converted to `float64`.  Valid for values in `(2^-8, 2^52)`. -/
def floatConst (p q : Nat) : Nat :=
  let L := nlog2 200 (p * 2 ^ 60 / q)
  rneDiv (p * 2 ^ (112 - L)) q * 2 ^ (L - 52)

/-- binary64 product of a (scaled) double and an exact small integer:
the exact product followed by one rounding, as IEEE multiplication. -/
def mulDouble (c r : Nat) : Nat := roundDouble (c * r)

/-- binary64 sum of two (scaled) doubles: the exact sum followed by one
rounding, as IEEE addition. -/
def addDouble (x y : Nat) : Nat := roundDouble (x + y)

/-- The grayscale kernel of `Grayscale`, `grayscaleDirect` and
`grayscaleParallel` (`gopiq.go` lines 346, 444 and 494 — the three
sites contain the identical expression):
`uint8(0.2126*float64(r) + 0.7152*float64(g) + 0.0722*float64(b))`.
Products and sums are binary64 operations evaluated left to right; the
final `uint8` conversion truncates toward zero. -/
def grayLum (r g b : Nat) : Nat :=
  let p1 := mulDouble (floatConst 2126 10000) r
  let p2 := mulDouble (floatConst 7152 10000) g
  let p3 := mulDouble (floatConst 722 10000) b
  addDouble (addDouble p1 p2) p3 / 2 ^ 60

/-- One RGBA pixel: four 8-bit channel samples. -/
structure RGBA where
  r : Nat
  g : Nat
  b : Nat
  a : Nat
deriving DecidableEq

/-- The zero sample written by `image.NewRGBA`: fully transparent black. -/
def zeroRGBA : RGBA := ⟨0, 0, 0, 0⟩

/-- A pixel buffer: `width × height` RGBA samples in row-major order
(pixel `(x, y)` at index `y * width + x`), the pixel view of an
`image.RGBA` with `Stride = 4 * width` and zero-origin bounds. -/
structure Buf where
  width : Nat
  height : Nat
  pix : List RGBA
deriving DecidableEq

/-- The buffer's sample at `(x, y)`; out-of-range reads default to the
zero sample (the transform engines only read in range). -/
def Buf.pixAt (bf : Buf) (x y : Nat) : RGBA :=
  bf.pix.getD (y * bf.width + x) zeroRGBA

/-- The per-pixel grayscale transform: the luminosity value is written
to all three color channels and the source alpha is copied unchanged
(`gopiq.go` lines 349-352). -/
def grayPixel (p : RGBA) : RGBA :=
  let gv := grayLum p.r p.g p.b
  ⟨gv, gv, gv, p.a⟩

/-- The inner column loop of the grayscale engines: for `x` from `0` to
`width - 1`, write the grayscale of source pixel `(x, y)` to
destination index `y*width + x` (`gopiq.go` lines 335-353). -/
def grayscaleRowGo (src : Buf) (y : Nat) (acc : List RGBA) : List RGBA :=
  (List.range src.width).foldl
    (fun acc2 x => acc2.set (y * src.width + x) (grayPixel (src.pixAt x y))) acc

/-- A run of consecutive row iterations `y = lo, …, lo + len - 1` of the
grayscale row loop — the sequential engine runs it over all rows, a
parallel worker over its strip (`gopiq.go` lines 331-354, 430-454). -/
def grayscaleRowsGo (src : Buf) (lo len : Nat) (acc : List RGBA) : List RGBA :=
  (List.range' lo len).foldl (fun acc2 y => grayscaleRowGo src y acc2) acc

/-- `Grayscale` (`gopiq.go` lines 309-358) and `grayscaleDirect` (lines
463-506), whose pixel loops are identical: allocate a fresh
zero-initialised destination of the same dimensions and run the row
loop over every row. -/
def grayscaleBuf (src : Buf) : Buf :=
  ⟨src.width, src.height,
    grayscaleRowsGo src 0 src.height
      (List.replicate (src.width * src.height) zeroRGBA)⟩

/-- Worker count of `grayscaleParallel` (`gopiq.go` lines 400-409):
the configured `MaxGoroutines`, replaced by `runtime.NumCPU()` when it
is `≤ 0`, then clamped to at most the row count. -/
def numWorkers (cpu : Nat) (maxG : Int) (h : Nat) : Nat :=
  let n0 : Nat := if maxG ≤ 0 then cpu else maxG.toNat
  if n0 > h then h else n0

/-- First row of worker `i`:`startRow := goroutineID * rowsPerGoroutine`
(`gopiq.go` line 421). -/
def workerStart (q i : Nat) : Nat := i * q

/-- One-past-last row of worker `i`: `startRow + rowsPerGoroutine`,
except that the last worker handles all remaining rows (`gopiq.go`
lines 422-427). -/
def workerEnd (h n q i : Nat) : Nat :=
  if i = n - 1 then h else i * q + q

/-- Number of rows in worker `i`'s strip. -/
def stripLen (h n q i : Nat) : Nat := workerEnd h n q i - workerStart q i

/-- `grayscaleParallel` (`gopiq.go` lines 385-461): a fresh
zero-initialised destination, `n` workers each running the row loop
over its strip `[startRow, endRow)` with `rowsPerGoroutine = h / n`.
The workers run concurrently in Go; their strips are disjoint (proved
below), so the resulting buffer is the same under every interleaving
and is modelled as the workers' writes folded in worker order. -/
def grayscaleParBuf (cpu : Nat) (maxG : Int) (src : Buf) : Buf :=
  let h := src.height
  let n := numWorkers cpu maxG h
  let q := h / n
  ⟨src.width, h,
    (List.range n).foldl
      (fun acc i =>
        grayscaleRowsGo src (workerStart q i)
          (workerEnd h n q i - workerStart q i) acc)
      (List.replicate (src.width * h) zeroRGBA)⟩

/-- Modelled from the spec (§4.2 of spec.md, the claimed contract):
`gray = round(0.2126*R + 0.7152*G + 0.0722*B)` computed in exact
rational arithmetic and rounded to the nearest integer.  This is the
formula the spec ascribes to the code, stated for comparison with the
code's own kernel `grayLum`; it is not a translation of the source. -/
def specGrayscaleRound (r g b : Nat) : Nat :=
  (2126 * r + 7152 * g + 722 * b + 5000) / 10000

/-- The error taxonomy of the library.  Go stores errors produced by
`fmt.Errorf`; each constructor stands for one distinct error message,
carrying the values interpolated into it, so equality of constructor
applications models equality of the Go error value and message. -/
inductive PErr where
  /-- "initial image cannot be nil" -/
  | nilInput
  /-- "input byte slice is empty" -/
  | emptyInput
  /-- "failed to decode image: …" -/
  | decodeFailure
  /-- "no image available to convert to bytes" -/
  | noImage
  /-- "crop dimensions must be positive (width: w, height: h)" -/
  | cropInvalidDims (w h : Int)
  /-- "crop rectangle … is out of image bounds …" -/
  | cropOutOfBounds (x y w h : Int)
  /-- "resize dimensions must be positive (width: w, height: h)" -/
  | resizeInvalidDims (w h : Int)
  /-- "watermark text cannot be empty" -/
  | emptyText
  /-- "failed to parse font bytes for watermark: …" -/
  | fontParseFailure
  /-- "failed to create font face for watermark: …" -/
  | faceCreationFailure
  /-- "GIF encoding is not directly supported without 3rd-party color quantization" -/
  | gifEncodeUnsupported
  /-- "jpeg: image is too large to encode" — returned by `jpeg.Encode`
  when a dimension reaches `1<<16` -/
  | jpegTooLarge
  /-- "invalid image size: WxH" — the `png.FormatError` returned by
  `png.Encode` when a dimension is non-positive or reaches `1<<32`;
  carries the offending dimensions -/
  | pngInvalidSize (w h : Nat)
  /-- "unsupported image format for encoding: …" -/
  | unsupportedFormat (fmtTag : Int)
  /-- "failed to encode image to bytes: %w" — wraps the inner encode error -/
  | encodeFailed (inner : PErr)
deriving DecidableEq

/-- `PerformanceOptions` (`gopiq.go` lines 597-607). -/
structure PerfOpts where
  maxGoroutines : Int
  enableParallelProcessing : Bool
  minSizeForParallel : Int
deriving DecidableEq

/-- `DefaultPerformanceOptions` (`gopiq.go` lines 609-616): all CPUs,
parallel enabled, 10000-pixel threshold. -/
def DefaultPerformanceOptions (cpu : Nat) : PerfOpts :=
  ⟨(cpu : Int), true, 10000⟩

/-- The zero value of `PerformanceOptions`, left in place by the
constructors' error paths (`&ImageProcessor{err: …}`). -/
def zeroPerfOpts : PerfOpts := ⟨0, false, 0⟩

/-- The `ImageProcessor` record.  Go's `currentImage` field is a
reference into the program's heap of allocated image buffers; here the
heap is an explicit `List Buf` of every allocated buffer (append-only:
proved below, no operation ever mutates an existing entry) and the
processor stores the index of its current buffer, `none` standing for
a nil `image.Image`.  The `sync.RWMutex` serialises every operation on
one processor, so a chain of calls is modelled as sequential steps. -/
structure Proc where
  bufIdx : Option Nat
  err : Option PErr
  perfOpts : PerfOpts
deriving DecidableEq

/-- The empty default buffer used for out-of-range heap reads (never
reached by the proved theorems). -/
def emptyBuf : Buf := ⟨0, 0, []⟩

/-- The buffer a processor observes: the heap entry its `currentImage`
reference designates. -/
def obsBuf (hp : List Buf) (p : Proc) : Option Buf :=
  p.bufIdx.map (fun i => hp.getD i emptyBuf)

/-- `New` (`gopiq.go` lines 142-152): nil image ⇒ processor born
Failed with the nil-input error (and zero-value options); otherwise
Ready on the given buffer with default performance options. -/
def newGo (cpu : Nat) (hp : List Buf) (img : Option Buf) : List Buf × Proc :=
  match img with
  | none => (hp, ⟨none, some .nilInput, zeroPerfOpts⟩)
  | some b => (hp ++ [b], ⟨some hp.length, none, DefaultPerformanceOptions cpu⟩)

/-- `NewWithPerformanceOptions` (`gopiq.go` lines 154-163). -/
def newWithPerfGo (hp : List Buf) (img : Option Buf) (opts : PerfOpts) :
    List Buf × Proc :=
  match img with
  | none => (hp, ⟨none, some .nilInput, zeroPerfOpts⟩)
  | some b => (hp ++ [b], ⟨some hp.length, none, opts⟩)

/-- `FromBytes` (`gopiq.go` lines 173-188).  Decoding is the external
format boundary: `decodeRes` is the image produced by `image.Decode`
on the given bytes, `none` when decoding failed.  `dataLen` is the
length of the input byte slice. -/
def fromBytesGo (cpu : Nat) (hp : List Buf) (dataLen : Nat)
    (decodeRes : Option Buf) : List Buf × Proc :=
  if dataLen = 0 then (hp, ⟨none, some .emptyInput, zeroPerfOpts⟩)
  else
    match decodeRes with
    | none => (hp, ⟨none, some .decodeFailure, zeroPerfOpts⟩)
    | some b => (hp ++ [b], ⟨some hp.length, none, DefaultPerformanceOptions cpu⟩)

/-- `SetPerformanceOptions` (`gopiq.go` lines 165-171): replaces the
configuration unconditionally (no error check). -/
def setPerfGo (p : Proc) (opts : PerfOpts) : Proc :=
  { p with perfOpts := opts }

/-- `Clone` (`gopiq.go` lines 229-241): a fresh record with the same
buffer reference, same latched error and same performance options (the
lock is per-record and is not part of the state). -/
def cloneGo (p : Proc) : Proc :=
  ⟨p.bufIdx, p.err, p.perfOpts⟩

/-- `Image` (`gopiq.go` lines 213-219): returns the current image and
the latched error together. -/
def imageGo (hp : List Buf) (p : Proc) : Option Buf × Option PErr :=
  (obsBuf hp p, p.err)

/-- The buffer produced by `Crop`'s `draw.Draw` copy (`gopiq.go` lines
269-271): a fresh `w × h` buffer whose pixel `(i, j)` is the source
pixel `(x + i, y + j)`.  Called only with `0 ≤ x, y` and the rectangle
inside the source bounds. -/
def cropBuf (b : Buf) (x y : Int) (w h : Nat) : Buf :=
  ⟨w, h,
    (List.range (w * h)).map
      (fun k => b.pixAt (x.toNat + k % w) (y.toNat + k / w))⟩

/-- `Crop` (`gopiq.go` lines 249-275): latched-error short circuit,
positivity check on the dimensions, then the `cropRect.In(bounds)`
test (`Min` inclusive, `Max` exclusive, bounds zero-origin) and the
sub-region copy into a freshly allocated buffer. -/
def cropGo (hp : List Buf) (p : Proc) (x y w h : Int) : List Buf × Proc :=
  match p.err with
  | some _ => (hp, p)
  | none =>
    if w ≤ 0 ∨ h ≤ 0 then
      (hp, { p with err := some (.cropInvalidDims w h) })
    else
      match p.bufIdx with
      | none => (hp, p)
      | some i =>
        let b := hp.getD i emptyBuf
        if 0 ≤ x ∧ 0 ≤ y ∧ x + w ≤ (b.width : Int) ∧ y + h ≤ (b.height : Int) then
          (hp ++ [cropBuf b x y w.toNat h.toNat],
            { p with bufIdx := some hp.length })
        else
          (hp, { p with err := some (.cropOutOfBounds x y w h) })

/-- The external collaborators used by `Resize` and
`AddTextWatermark`: the Catmull-Rom scaler of `golang.org/x/image/draw`
and the font-shaping/rasterising boundary of `golang.org/x/image/font`.
The spec (§1, §6) excludes both from the core; they are parameters of
the embedding.  `scale b w h` is the pixel content `draw.CatmullRom.Scale`
writes into a fresh `w × h` destination; `drawText b t` the content of
the copied buffer after `DrawString`; `fontParseOk` / `faceOk` whether
`opentype.Parse` / `opentype.NewFace` succeed on the configured font. -/
structure Collab where
  scale : Buf → Nat → Nat → List RGBA
  fontParseOk : Bool
  faceOk : Bool
  drawText : Buf → String → List RGBA

/-- `Resize` (`gopiq.go` lines 282-303): latched-error short circuit,
positivity check, then the external scale into a fresh buffer of
exactly the requested dimensions. -/
def resizeGo (cb : Collab) (hp : List Buf) (p : Proc) (w h : Int) :
    List Buf × Proc :=
  match p.err with
  | some _ => (hp, p)
  | none =>
    if w ≤ 0 ∨ h ≤ 0 then
      (hp, { p with err := some (.resizeInvalidDims w h) })
    else
      match p.bufIdx with
      | none => (hp, p)
      | some i =>
        let b := hp.getD i emptyBuf
        (hp ++ [⟨w.toNat, h.toNat, cb.scale b w.toNat h.toNat⟩],
          { p with bufIdx := some hp.length })

/-- `Grayscale` as a processor operation (`gopiq.go` lines 309-358):
latched-error short circuit, then the sequential engine into a fresh
buffer that replaces the current one. -/
def grayGo (hp : List Buf) (p : Proc) : List Buf × Proc :=
  match p.err with
  | some _ => (hp, p)
  | none =>
    match p.bufIdx with
    | none => (hp, p)
    | some i =>
      let b := hp.getD i emptyBuf
      (hp ++ [grayscaleBuf b], { p with bufIdx := some hp.length })

/-- `GrayscaleFast` (`gopiq.go` lines 364-382): latched-error short
circuit, then dispatch — the parallel engine when parallel processing
is enabled and `width*height` reaches the configured minimum size, the
single-threaded direct engine otherwise. -/
def grayFastGo (cpu : Nat) (hp : List Buf) (p : Proc) : List Buf × Proc :=
  match p.err with
  | some _ => (hp, p)
  | none =>
    match p.bufIdx with
    | none => (hp, p)
    | some i =>
      let b := hp.getD i emptyBuf
      if p.perfOpts.enableParallelProcessing ∧
          p.perfOpts.minSizeForParallel ≤ ((b.width * b.height : Nat) : Int) then
        (hp ++ [grayscaleParBuf cpu p.perfOpts.maxGoroutines b],
          { p with bufIdx := some hp.length })
      else
        (hp ++ [grayscaleBuf b], { p with bufIdx := some hp.length })

/-- `AddTextWatermark` (`gopiq.go` lines 513-595): latched-error short
circuit, empty-text check, font parse, face creation, then the copy of
the current buffer with the text drawn on it.  The configuration
options only influence the external drawing, which is the collaborator
`cb.drawText`. -/
def watermarkGo (cb : Collab) (hp : List Buf) (p : Proc) (text : String) :
    List Buf × Proc :=
  match p.err with
  | some _ => (hp, p)
  | none =>
    if text = "" then (hp, { p with err := some (.emptyText) })
    else if ¬cb.fontParseOk then (hp, { p with err := some (.fontParseFailure) })
    else if ¬cb.faceOk then (hp, { p with err := some (.faceCreationFailure) })
    else
      match p.bufIdx with
      | none => (hp, p)
      | some i =>
        let b := hp.getD i emptyBuf
        (hp ++ [⟨b.width, b.height, cb.drawText b text⟩],
          { p with bufIdx := some hp.length })

/-- One chainable write operation of the processor surface. -/
inductive OpCall where
  | crop (x y w h : Int)
  | resize (w h : Int)
  | gray
  | grayFast
  | watermark (text : String)

/-- Dispatch of one chained call to the corresponding method. -/
def stepH (cb : Collab) (cpu : Nat) (hp : List Buf) (p : Proc) :
    OpCall → List Buf × Proc
  | .crop x y w h => cropGo hp p x y w h
  | .resize w h => resizeGo cb hp p w h
  | .gray => grayGo hp p
  | .grayFast => grayFastGo cpu hp p
  | .watermark t => watermarkGo cb hp p t

/-- The `ImageFormat` enumeration (`formats.go` lines 15-23): an `int`
with the four declared constants; `encodeImage`'s `switch` has a
default branch, so every other value is meaningful input too. -/
def FormatUnknown : Int := 0

/-- `FormatJPEG` (`formats.go`). -/
def FormatJPEG : Int := 1

/-- `FormatPNG` (`formats.go`). -/
def FormatPNG : Int := 2

/-- `FormatGIF` (`formats.go`): decodable, but not encodable. -/
def FormatGIF : Int := 3

/-- The bytes produced by a successful encode — opaque output of the
external `image/jpeg` and `image/png` encoders. -/
inductive EncBytes where
  | jpegBytes (b : Buf)
  | pngBytes (b : Buf)
deriving DecidableEq

/-- `encodeImage` (`formats.go` lines 62-77): JPEG and PNG delegate to
the standard-library encoders, GIF fails with its dedicated error,
every other tag with the unsupported-format error.  The external
encoders are not unconditional: `jpeg.Encode` rejects any image with a
dimension `≥ 1<<16` ("jpeg: image is too large to encode", its first
check) and `png.Encode` rejects a non-positive or `≥ 1<<32` dimension
("invalid image size", its first check); on every other buffer a write
to an in-memory `bytes.Buffer` succeeds.  `4294967296 = 1<<32`. -/
def encodeImage (fm : Int) (b : Buf) : Except PErr EncBytes :=
  if fm = FormatJPEG then
    if 65536 ≤ b.width ∨ 65536 ≤ b.height then .error .jpegTooLarge
    else .ok (.jpegBytes b)
  else if fm = FormatPNG then
    if b.width = 0 ∨ b.height = 0 ∨ 4294967296 ≤ b.width ∨ 4294967296 ≤ b.height then
      .error (.pngInvalidSize b.width b.height)
    else .ok (.pngBytes b)
  else if fm = FormatGIF then .error .gifEncodeUnsupported
  else .error (.unsupportedFormat fm)

/-- `ToBytes` (`gopiq.go` lines 194-211): the latched error if Failed,
the nil-image guard, then `encodeImage` with failures wrapped in the
failed-to-encode context error. -/
def toBytesGo (hp : List Buf) (p : Proc) (fm : Int) : Except PErr EncBytes :=
  match p.err with
  | some e => .error e
  | none =>
    match p.bufIdx with
    | none => .error .noImage
    | some i =>
      match encodeImage fm (hp.getD i emptyBuf) with
      | .ok bs => .ok bs
      | .error e => .error (.encodeFailed e)

/-- The states `(heap, processor)` reachable through the package
constructors followed by any sequence of operations, for a machine
with `cpu` hardware threads: `New`, `NewWithPerformanceOptions`,
`FromBytes` create processors; `SetPerformanceOptions`, `Clone` and
every chainable write operation (under arbitrary external
collaborators) continue them.  The read-only accessors do not change
the state. -/
inductive Reach (cpu : Nat) : List Buf → Proc → Prop where
  | mkNew : ∀ hp img, Reach cpu (newGo cpu hp img).1 (newGo cpu hp img).2
  | mkNewPerf : ∀ hp img opts,
      Reach cpu (newWithPerfGo hp img opts).1 (newWithPerfGo hp img opts).2
  | mkFromBytes : ∀ hp dataLen dec,
      Reach cpu (fromBytesGo cpu hp dataLen dec).1 (fromBytesGo cpu hp dataLen dec).2
  | setPerf : ∀ hp p opts, Reach cpu hp p → Reach cpu hp (setPerfGo p opts)
  | clone : ∀ hp p, Reach cpu hp p → Reach cpu hp (cloneGo p)
  | step : ∀ cb hp p op, Reach cpu hp p →
      Reach cpu (stepH cb cpu hp p op).1 (stepH cb cpu hp p op).2

/-- Proof-layer view: the destination indices written while processing
row `y` of a `w`-pixel-wide buffer, in loop order. -/
def rowIdx (w y : Nat) : List Nat :=
  (List.range w).map (fun x => y * w + x)

/-- Proof-layer view: the value the grayscale engines write at
destination index `j` — the grayscale of the source sample at the same
index.  Both engines write this same function of the index. -/
def grayV (src : Buf) (j : Nat) : RGBA :=
  grayPixel (src.pix.getD j zeroRGBA)

/-- Proof-layer view: perform the writes `acc[j] := v j` for `j` drawn
from `L` in order. -/
def setList (v : Nat → RGBA) (z : List RGBA) (L : List Nat) : List RGBA :=
  L.foldl (fun acc j => acc.set j (v j)) z

/-- Sanity values of the embedded binary64 kernel, matching the Go
computation (note that white maps to 254, not 255, and gray 5 to 4:
the float sum dips just below the exact integer and is truncated). -/
theorem grayLum_sample_values :
    grayLum 5 5 5 = 4 ∧ grayLum 0 0 70 = 5 ∧ grayLum 0 1 0 = 0 ∧
    grayLum 255 255 255 = 254 ∧ grayLum 10 20 30 = 18 := by
  decide

theorem setList_nil (v : Nat → RGBA) (z : List RGBA) : setList v z [] = z := rfl

theorem setList_cons (v : Nat → RGBA) (z : List RGBA) (j : Nat) (T : List Nat) :
    setList v z (j :: T) = setList v (z.set j (v j)) T := rfl

theorem setList_append (v : Nat → RGBA) (z : List RGBA) (L1 L2 : List Nat) :
    setList v z (L1 ++ L2) = setList v (setList v z L1) L2 :=
  List.foldl_append _ _ _ _

theorem setList_flatMap {α : Type} (v : Nat → RGBA) (z : List RGBA)
    (l : List α) (f : α → List Nat) :
    setList v z (l.flatMap f) = l.foldl (fun acc a => setList v acc (f a)) z := by
  induction l generalizing z with
  | nil => rfl
  | cons a t ih =>
    rw [List.flatMap_cons, setList_append, List.foldl_cons, ih]

theorem setList_length (v : Nat → RGBA) (z : List RGBA) (L : List Nat) :
    (setList v z L).length = z.length := by
  induction L generalizing z with
  | nil => rfl
  | cons j T ih => rw [setList_cons, ih, List.length_set]

theorem setList_getElem? (v : Nat → RGBA) (z : List RGBA) (L : List Nat) (idx : Nat) :
    (setList v z L)[idx]? =
      if idx ∈ L ∧ idx < z.length then some (v idx) else z[idx]? := by
  induction L generalizing z with
  | nil => simp [setList_nil]
  | cons j T ih =>
    rw [setList_cons, ih, List.length_set]
    by_cases ht : idx ∈ T ∧ idx < z.length
    · rw [if_pos ht, if_pos ⟨List.mem_cons_of_mem _ ht.1, ht.2⟩]
    · rw [if_neg ht, List.getElem?_set]
      by_cases hj : j = idx
      · subst hj
        by_cases hl : j < z.length
        · rw [if_pos rfl, if_pos hl, if_pos ⟨List.mem_cons_self _ _, hl⟩]
        · rw [if_pos rfl, if_neg hl, if_neg (fun hc => hl hc.2)]
          exact (List.getElem?_eq_none (by omega)).symm
      · rw [if_neg hj,
          if_neg (fun hc => (List.mem_cons.1 hc.1).elim
            (fun he => hj he.symm) (fun hm => ht ⟨hm, hc.2⟩))]

theorem setList_getD (v : Nat → RGBA) (z : List RGBA) (L : List Nat) (idx : Nat) :
    (setList v z L).getD idx zeroRGBA =
      if idx ∈ L ∧ idx < z.length then v idx else z.getD idx zeroRGBA := by
  rw [List.getD_eq_getElem?_getD, setList_getElem?, List.getD_eq_getElem?_getD]
  split_ifs <;> rfl


theorem grayscaleRowGo_eq (src : Buf) (y : Nat) (acc : List RGBA) :
    grayscaleRowGo src y acc = setList (grayV src) acc (rowIdx src.width y) := by
  unfold grayscaleRowGo setList rowIdx
  rw [List.foldl_map]
  rfl

theorem grayscaleRowsGo_eq (src : Buf) (lo len : Nat) (acc : List RGBA) :
    grayscaleRowsGo src lo len acc =
      setList (grayV src) acc ((List.range' lo len).flatMap (rowIdx src.width)) := by
  rw [setList_flatMap]
  unfold grayscaleRowsGo
  simp only [grayscaleRowGo_eq]

theorem flatMapCongr {α β : Type} {l : List α} {f g : α → List β}
    (hfg : ∀ a ∈ l, f a = g a) : l.flatMap f = l.flatMap g := by
  induction l with
  | nil => rfl
  | cons a t ih =>
    rw [List.flatMap_cons, List.flatMap_cons, hfg a (List.mem_cons_self a t),
      ih (fun x hx => hfg x (List.mem_cons_of_mem a hx))]

theorem uniformStrips (q : Nat) :
    ∀ m : Nat, (List.range m).flatMap (fun i => List.range' (i * q) q) =
      List.range' 0 (m * q) := by
  intro m
  induction m with
  | zero => simp
  | succ m ih =>
    rw [List.range_succ, List.flatMap_append, ih]
    have happ := List.range'_append 0 (m * q) q 1
    simp only [one_mul, Nat.zero_add] at happ
    rw [List.flatMap_cons, List.flatMap_nil, List.append_nil, happ,
      Nat.succ_mul, Nat.add_comm q (m * q)]

theorem stripsJoin (h n : Nat) (h1 : 1 ≤ n) (h2 : n ≤ h) :
    (List.range n).flatMap
        (fun i => List.range' (workerStart (h / n) i) (stripLen h n (h / n) i)) =
      List.range h := by
  set q := h / n with hq
  obtain ⟨m, rfl⟩ : ∃ m, n = m + 1 := ⟨n - 1, by omega⟩
  have hmq : m * q ≤ h := by
    calc m * q ≤ (m + 1) * q := Nat.mul_le_mul_right q (by omega)
    _ = q * (m + 1) := Nat.mul_comm _ _
    _ ≤ h := by rw [hq]; exact Nat.div_mul_le_self h (m + 1)
  rw [List.range_succ, List.flatMap_append,
    flatMapCongr (g := fun i => List.range' (i * q) q)
      (fun i hi => by
        have him : i ≠ m := by
          have := List.mem_range.1 hi; omega
        simp [workerStart, stripLen, workerEnd, him]),
    uniformStrips q m, List.flatMap_cons, List.flatMap_nil, List.append_nil]
  have hlast : stripLen h (m + 1) q m = h - m * q := by
    simp [stripLen, workerEnd, workerStart]
  rw [hlast, workerStart]
  have happ := List.range'_append 0 (m * q) (h - m * q) 1
  simp only [one_mul, Nat.zero_add] at happ
  rw [happ, List.range_eq_range']
  congr 1
  omega

theorem numWorkers_pos (cpu h : Nat) (maxG : Int) (hcpu : 1 ≤ cpu) (hh : 1 ≤ h) :
    1 ≤ numWorkers cpu maxG h := by
  simp only [numWorkers]
  split_ifs <;> omega

theorem numWorkers_le (cpu h : Nat) (maxG : Int) : numWorkers cpu maxG h ≤ h := by
  simp only [numWorkers]
  split_ifs <;> omega

theorem grayscaleBuf_pix_eq (src : Buf) :
    (grayscaleBuf src).pix =
      setList (grayV src) (List.replicate (src.width * src.height) zeroRGBA)
        ((List.range src.height).flatMap (rowIdx src.width)) := by
  show grayscaleRowsGo src 0 src.height _ = _
  rw [grayscaleRowsGo_eq, List.range_eq_range']

theorem grayscalePar_eq_seq (cpu : Nat) (maxG : Int) (src : Buf)
    (hcpu : 1 ≤ cpu) (hh : 1 ≤ src.height) :
    grayscaleParBuf cpu maxG src = grayscaleBuf src := by
  have hn1 : 1 ≤ numWorkers cpu maxG src.height := numWorkers_pos _ _ _ hcpu hh
  have hn2 : numWorkers cpu maxG src.height ≤ src.height := numWorkers_le _ _ _
  unfold grayscaleParBuf grayscaleBuf
  refine congrArg (Buf.mk src.width src.height) ?_
  simp only [grayscaleRowsGo_eq]
  rw [← setList_flatMap, ← List.flatMap_assoc]
  show setList (grayV src) (List.replicate (src.width * src.height) zeroRGBA)
      (((List.range (numWorkers cpu maxG src.height)).flatMap fun i =>
        List.range' (workerStart (src.height / numWorkers cpu maxG src.height) i)
          (stripLen src.height (numWorkers cpu maxG src.height)
            (src.height / numWorkers cpu maxG src.height) i)).flatMap
        (rowIdx src.width)) =
    setList (grayV src) (List.replicate (src.width * src.height) zeroRGBA)
      ((List.range' 0 src.height).flatMap (rowIdx src.width))
  rw [stripsJoin _ _ hn1 hn2, List.range_eq_range']

theorem rowColIdxLt (w h x y : Nat) (hx : x < w) (hy : y < h) :
    y * w + x < w * h := by
  calc y * w + x < y * w + w := by omega
  _ = (y + 1) * w := (Nat.succ_mul y w).symm
  _ ≤ h * w := Nat.mul_le_mul_right w (by omega)
  _ = w * h := Nat.mul_comm h w

theorem grayscaleBuf_width (src : Buf) : (grayscaleBuf src).width = src.width := rfl

theorem grayscaleBuf_height (src : Buf) : (grayscaleBuf src).height = src.height := rfl

theorem grayscaleBuf_pix_length (src : Buf) :
    (grayscaleBuf src).pix.length = src.width * src.height := by
  rw [grayscaleBuf_pix_eq, setList_length, List.length_replicate]

theorem grayscaleBuf_pixAt (src : Buf) (x y : Nat)
    (hx : x < src.width) (hy : y < src.height) :
    (grayscaleBuf src).pixAt x y = grayPixel (src.pixAt x y) := by
  have hidx : y * src.width + x < src.width * src.height :=
    rowColIdxLt _ _ _ _ hx hy
  have hmem : y * src.width + x ∈
      (List.range src.height).flatMap (rowIdx src.width) :=
    List.mem_flatMap.2 ⟨y, List.mem_range.2 hy,
      List.mem_map.2 ⟨x, List.mem_range.2 hx, rfl⟩⟩
  show (grayscaleBuf src).pix.getD (y * (grayscaleBuf src).width + x) zeroRGBA = _
  rw [grayscaleBuf_width, grayscaleBuf_pix_eq, setList_getD,
    if_pos ⟨hmem, by rw [List.length_replicate]; exact hidx⟩]
  rfl

theorem cropGo_heap (hp : List Buf) (p : Proc) (x y w h : Int) :
    ∃ t, (cropGo hp p x y w h).1 = hp ++ t := by
  unfold cropGo
  rcases herr : p.err with _ | e
  · simp only
    split_ifs with hd
    · exact ⟨[], (List.append_nil hp).symm⟩
    · rcases hbi : p.bufIdx with _ | i
      · exact ⟨[], (List.append_nil hp).symm⟩
      · simp only
        split_ifs with hb
        · exact ⟨[cropBuf (hp.getD i emptyBuf) x y w.toNat h.toNat], rfl⟩
        · exact ⟨[], (List.append_nil hp).symm⟩
  · exact ⟨[], (List.append_nil hp).symm⟩

theorem resizeGo_heap (cb : Collab) (hp : List Buf) (p : Proc) (w h : Int) :
    ∃ t, (resizeGo cb hp p w h).1 = hp ++ t := by
  unfold resizeGo
  rcases herr : p.err with _ | e
  · simp only
    split_ifs with hd
    · exact ⟨[], (List.append_nil hp).symm⟩
    · rcases hbi : p.bufIdx with _ | i
      · exact ⟨[], (List.append_nil hp).symm⟩
      · exact ⟨[⟨w.toNat, h.toNat,
          cb.scale (hp.getD i emptyBuf) w.toNat h.toNat⟩], rfl⟩
  · exact ⟨[], (List.append_nil hp).symm⟩

theorem grayGo_heap (hp : List Buf) (p : Proc) :
    ∃ t, (grayGo hp p).1 = hp ++ t := by
  unfold grayGo
  rcases herr : p.err with _ | e
  · rcases hbi : p.bufIdx with _ | i
    · exact ⟨[], (List.append_nil hp).symm⟩
    · exact ⟨[grayscaleBuf (hp.getD i emptyBuf)], rfl⟩
  · exact ⟨[], (List.append_nil hp).symm⟩

theorem grayFastGo_heap (cpu : Nat) (hp : List Buf) (p : Proc) :
    ∃ t, (grayFastGo cpu hp p).1 = hp ++ t := by
  unfold grayFastGo
  rcases herr : p.err with _ | e
  · rcases hbi : p.bufIdx with _ | i
    · exact ⟨[], (List.append_nil hp).symm⟩
    · simp only
      split_ifs with hpar
      · exact ⟨[grayscaleParBuf cpu p.perfOpts.maxGoroutines
          (hp.getD i emptyBuf)], rfl⟩
      · exact ⟨[grayscaleBuf (hp.getD i emptyBuf)], rfl⟩
  · exact ⟨[], (List.append_nil hp).symm⟩

theorem watermarkGo_heap (cb : Collab) (hp : List Buf) (p : Proc) (t : String) :
    ∃ tl, (watermarkGo cb hp p t).1 = hp ++ tl := by
  unfold watermarkGo
  rcases herr : p.err with _ | e
  · rcases hbi : p.bufIdx with _ | i <;> simp only <;> split_ifs <;>
      first
        | exact ⟨[], (List.append_nil hp).symm⟩
        | refine ⟨[_], rfl⟩
  · exact ⟨[], (List.append_nil hp).symm⟩

theorem stepH_heap (cb : Collab) (cpu : Nat) (hp : List Buf) (p : Proc)
    (op : OpCall) : ∃ t, (stepH cb cpu hp p op).1 = hp ++ t := by
  cases op with
  | crop x y w h => exact cropGo_heap hp p x y w h
  | resize w h => exact resizeGo_heap cb hp p w h
  | gray => exact grayGo_heap hp p
  | grayFast => exact grayFastGo_heap cpu hp p
  | watermark t => exact watermarkGo_heap cb hp p t

set_option maxRecDepth 100000 in
theorem grayDiagonalBall : ∀ v, v < 256 → grayLum v v v ≤ v ∧ v ≤ grayLum v v v + 1 := by
  decide

theorem stepH_invariant (cb : Collab) (cpu : Nat) (hp : List Buf) (p : Proc)
    (op : OpCall) (ih : p.err = none → ∃ i, p.bufIdx = some i) :
    (stepH cb cpu hp p op).2.err = none → ∃ j, (stepH cb cpu hp p op).2.bufIdx = some j := by
  cases op with
  | crop x y w h =>
    simp only [stepH]
    unfold cropGo
    rcases herr : p.err with _ | e
    · rcases hbi : p.bufIdx with _ | i
      · intro _
        obtain ⟨i, hi⟩ := ih herr
        rw [hbi] at hi
        exact Option.noConfusion hi
      · simp only
        split_ifs <;> simp
    · simp [herr]
  | resize w h =>
    simp only [stepH]
    unfold resizeGo
    rcases herr : p.err with _ | e
    · rcases hbi : p.bufIdx with _ | i
      · intro _
        obtain ⟨i, hi⟩ := ih herr
        rw [hbi] at hi
        exact Option.noConfusion hi
      · simp only
        split_ifs <;> simp
    · simp [herr]
  | gray =>
    simp only [stepH]
    unfold grayGo
    rcases herr : p.err with _ | e
    · rcases hbi : p.bufIdx with _ | i
      · intro _
        obtain ⟨i, hi⟩ := ih herr
        rw [hbi] at hi
        exact Option.noConfusion hi
      · simp
    · simp [herr]
  | grayFast =>
    simp only [stepH]
    unfold grayFastGo
    rcases herr : p.err with _ | e
    · rcases hbi : p.bufIdx with _ | i
      · intro _
        obtain ⟨i, hi⟩ := ih herr
        rw [hbi] at hi
        exact Option.noConfusion hi
      · simp only
        split_ifs <;> simp
    · simp [herr]
  | watermark t =>
    simp only [stepH]
    unfold watermarkGo
    rcases herr : p.err with _ | e
    · rcases hbi : p.bufIdx with _ | i
      · intro _
        obtain ⟨i, hi⟩ := ih herr
        rw [hbi] at hi
        exact Option.noConfusion hi
      · simp only
        split_ifs <;> simp
    · simp [herr]

/-- C1: for every source buffer with at least one row, every hardware
thread count `≥ 1` and every worker-count configuration (the quantified
`maxG` covers 1, 2, 4, 8 and the hardware count), the parallel
grayscale engine produces a buffer identical — all four channels of
every pixel — to the sequential `Grayscale` engine, and consequently
`GrayscaleFast` (either dispatch branch) produces exactly the state
`Grayscale` produces. -/
theorem grayscaleFast_refines_grayscale (cpu : Nat) (maxG : Int) (src : Buf)
    (hcpu : 1 ≤ cpu) (hh : 1 ≤ src.height) :
    grayscaleParBuf cpu maxG src = grayscaleBuf src ∧
    ∀ hp p, (∀ i, p.bufIdx = some i → 1 ≤ (hp.getD i emptyBuf).height) →
      grayFastGo cpu hp p = grayGo hp p := by
  refine ⟨grayscalePar_eq_seq cpu maxG src hcpu hh, fun hp p hidx => ?_⟩
  unfold grayFastGo grayGo
  rcases herr : p.err with _ | e
  · rcases hbi : p.bufIdx with _ | i
    · rfl
    · simp only
      split_ifs with hpar
      · rw [grayscalePar_eq_seq _ _ _ hcpu (hidx i hbi)]
      · rfl
  · rfl

/-- C1 witness: the refinement at a concrete 2×3 buffer, 2 hardware
threads and 3 configured workers. -/
theorem grayscaleFast_refines_grayscale_witness :
    grayscaleParBuf 2 3 ⟨2, 3, [⟨255, 0, 0, 1⟩, ⟨0, 255, 0, 2⟩, ⟨0, 0, 255, 3⟩,
        ⟨10, 20, 30, 4⟩, ⟨5, 5, 5, 5⟩, ⟨200, 100, 50, 6⟩]⟩ =
      grayscaleBuf ⟨2, 3, [⟨255, 0, 0, 1⟩, ⟨0, 255, 0, 2⟩, ⟨0, 0, 255, 3⟩,
        ⟨10, 20, 30, 4⟩, ⟨5, 5, 5, 5⟩, ⟨200, 100, 50, 6⟩]⟩ ∧
    ∀ hp p, (∀ i, p.bufIdx = some i → 1 ≤ (hp.getD i emptyBuf).height) →
      grayFastGo 2 hp p = grayGo hp p :=
  grayscaleFast_refines_grayscale 2 3
    ⟨2, 3, [⟨255, 0, 0, 1⟩, ⟨0, 255, 0, 2⟩, ⟨0, 0, 255, 3⟩,
      ⟨10, 20, 30, 4⟩, ⟨5, 5, 5, 5⟩, ⟨200, 100, 50, 6⟩]⟩
    (by decide) (by decide)

/-- C2 counterexample: the claim's rounded-to-nearest formula gives 1
at the pure-green unit pixel `(0, 1, 0)` (`0.7152` rounds to `1`), but
the code's `uint8` conversion truncates the float value `0.7152` to
`0`: the Grayscale operation writes `0`, not `round(…) = 1`. -/
theorem grayscale_rounding_counterexample :
    (grayscaleBuf ⟨1, 1, [⟨0, 1, 0, 9⟩]⟩).pixAt 0 0 = ⟨0, 0, 0, 9⟩ ∧
    specGrayscaleRound 0 1 0 = 1 ∧
    ((grayscaleBuf ⟨1, 1, [⟨0, 1, 0, 9⟩]⟩).pixAt 0 0).r ≠ specGrayscaleRound 0 1 0 := by
  decide

/-- C2 (amended): for every pixel, `Grayscale` writes
`gray = uint8-truncation of the binary64 value of 0.2126*R + 0.7152*G
+ 0.0722*B` (not the rounded-to-nearest value) into all three color
channels, copies the source alpha unchanged, and allocates a fresh
destination buffer of identical dimensions appended to the heap — the
source buffer and every other heap entry are left untouched. -/
theorem grayscale_truncated_luminosity (hp : List Buf) (p : Proc) (i : Nat) (b : Buf)
    (herr : p.err = none) (hbi : p.bufIdx = some i) (hb : hp.getD i emptyBuf = b) :
    grayGo hp p = (hp ++ [grayscaleBuf b], { p with bufIdx := some hp.length }) ∧
    (grayscaleBuf b).width = b.width ∧
    (grayscaleBuf b).height = b.height ∧
    (grayscaleBuf b).pix.length = b.width * b.height ∧
    (∀ x y, x < b.width → y < b.height →
      (grayscaleBuf b).pixAt x y =
        ⟨grayLum (b.pixAt x y).r (b.pixAt x y).g (b.pixAt x y).b,
         grayLum (b.pixAt x y).r (b.pixAt x y).g (b.pixAt x y).b,
         grayLum (b.pixAt x y).r (b.pixAt x y).g (b.pixAt x y).b,
         (b.pixAt x y).a⟩) := by
  refine ⟨?_, rfl, rfl, grayscaleBuf_pix_length b, fun x y hx hy => ?_⟩
  · unfold grayGo
    have hb2 : hp[i]?.getD emptyBuf = b := by
      rw [← List.getD_eq_getElem?_getD]; exact hb
    simp [herr, hbi, hb2]
  · rw [grayscaleBuf_pixAt b x y hx hy]
    rfl

/-- C2 witness: the amended grayscale contract at a concrete 1×1 buffer. -/
theorem grayscale_truncated_luminosity_witness :
    (⟨some 0, none, zeroPerfOpts⟩ : Proc).err = none ∧
    (⟨some 0, none, zeroPerfOpts⟩ : Proc).bufIdx = some 0 ∧
    ([⟨1, 1, [⟨200, 100, 50, 7⟩]⟩] : List Buf).getD 0 emptyBuf =
      ⟨1, 1, [⟨200, 100, 50, 7⟩]⟩ ∧
    grayGo [⟨1, 1, [⟨200, 100, 50, 7⟩]⟩] ⟨some 0, none, zeroPerfOpts⟩ =
      ([⟨1, 1, [⟨200, 100, 50, 7⟩]⟩, grayscaleBuf ⟨1, 1, [⟨200, 100, 50, 7⟩]⟩],
        ⟨some 1, none, zeroPerfOpts⟩) :=
  ⟨rfl, rfl, by decide,
    (grayscale_truncated_luminosity [⟨1, 1, [⟨200, 100, 50, 7⟩]⟩]
      ⟨some 0, none, zeroPerfOpts⟩ 0 ⟨1, 1, [⟨200, 100, 50, 7⟩]⟩
      rfl rfl (by decide)).1⟩

/-- C3: once a processor is Failed, every chainable operation (Crop,
Resize, Grayscale, GrayscaleFast, AddTextWatermark) is a no-op: it
returns the same processor with the same latched error and the same
buffer, and the heap is untouched. -/
theorem sticky_error_noop (cb : Collab) (cpu : Nat) (hp : List Buf) (p : Proc)
    (op : OpCall) (e : PErr) (herr : p.err = some e) :
    stepH cb cpu hp p op = (hp, p) ∧ (stepH cb cpu hp p op).2.err = some e := by
  have h : stepH cb cpu hp p op = (hp, p) := by
    cases op <;>
      simp [stepH, cropGo, resizeGo, grayGo, grayFastGo, watermarkGo, herr]
  exact ⟨h, by rw [h]; exact herr⟩

/-- C3 witness: a Failed processor is left untouched by a crop call. -/
theorem sticky_error_noop_witness :
    (⟨some 0, some .nilInput, zeroPerfOpts⟩ : Proc).err = some .nilInput ∧
    stepH ⟨fun _ _ _ => [], true, true, fun _ _ => []⟩ 1 [⟨1, 1, [⟨9, 9, 9, 9⟩]⟩]
        ⟨some 0, some .nilInput, zeroPerfOpts⟩ (.crop 0 0 1 1) =
      ([⟨1, 1, [⟨9, 9, 9, 9⟩]⟩], ⟨some 0, some .nilInput, zeroPerfOpts⟩) :=
  ⟨rfl, (sticky_error_noop ⟨fun _ _ _ => [], true, true, fun _ _ => []⟩ 1
    [⟨1, 1, [⟨9, 9, 9, 9⟩]⟩] ⟨some 0, some .nilInput, zeroPerfOpts⟩
    (.crop 0 0 1 1) .nilInput rfl).1⟩

/-- C4: for a buffer of height `≥ 1` (and hardware count `≥ 1`) the
worker count equals the configured maximum — or the hardware count
when the maximum is `≤ 0` — clamped to the row count; the strips are
contiguous with `h / n` rows each, the last absorbing the remainder
`h % n`; concatenated in worker order they are exactly the rows
`0, …, h-1`, so they cover every row exactly once, and they are
pairwise disjoint. -/
theorem parallel_strip_partition (cpu h : Nat) (maxG : Int)
    (hcpu : 1 ≤ cpu) (hh : 1 ≤ h) :
    numWorkers cpu maxG h = min (if maxG ≤ 0 then cpu else maxG.toNat) h ∧
    1 ≤ numWorkers cpu maxG h ∧ numWorkers cpu maxG h ≤ h ∧
    (∀ i, i < numWorkers cpu maxG h - 1 →
      stripLen h (numWorkers cpu maxG h) (h / numWorkers cpu maxG h) i =
        h / numWorkers cpu maxG h) ∧
    stripLen h (numWorkers cpu maxG h) (h / numWorkers cpu maxG h)
        (numWorkers cpu maxG h - 1) =
      h / numWorkers cpu maxG h + h % numWorkers cpu maxG h ∧
    ((List.range (numWorkers cpu maxG h)).flatMap
        (fun i => List.range' (workerStart (h / numWorkers cpu maxG h) i)
          (stripLen h (numWorkers cpu maxG h) (h / numWorkers cpu maxG h) i)) =
      List.range h) ∧
    List.Pairwise (List.Disjoint on
        (fun i => List.range' (workerStart (h / numWorkers cpu maxG h) i)
          (stripLen h (numWorkers cpu maxG h) (h / numWorkers cpu maxG h) i)))
      (List.range (numWorkers cpu maxG h)) := by
  have hn1 := numWorkers_pos cpu h maxG hcpu hh
  have hn2 := numWorkers_le cpu h maxG
  have hjoin := stripsJoin h (numWorkers cpu maxG h) hn1 hn2
  have hmin : numWorkers cpu maxG h = min (if maxG ≤ 0 then cpu else maxG.toNat) h := by
    by_cases hg : maxG ≤ 0
    · simp only [numWorkers, if_pos hg]
      split_ifs <;> omega
    · simp only [numWorkers, if_neg hg]
      split_ifs <;> omega
  refine ⟨hmin, hn1, hn2, ?_, ?_, hjoin, ?_⟩
  · intro i hi
    have hne : i ≠ numWorkers cpu maxG h - 1 := by omega
    simp only [stripLen, workerEnd, workerStart, if_neg hne]
    exact Nat.add_sub_cancel_left (i * (h / numWorkers cpu maxG h))
      (h / numWorkers cpu maxG h)
  · have hlast : stripLen h (numWorkers cpu maxG h) (h / numWorkers cpu maxG h)
        (numWorkers cpu maxG h - 1) =
        h - (numWorkers cpu maxG h - 1) * (h / numWorkers cpu maxG h) := by
      simp [stripLen, workerEnd, workerStart]
    have e1 : numWorkers cpu maxG h * (h / numWorkers cpu maxG h) +
        h % numWorkers cpu maxG h = h := Nat.div_add_mod h _
    have e2 : (numWorkers cpu maxG h - 1) * (h / numWorkers cpu maxG h) +
        h / numWorkers cpu maxG h =
        numWorkers cpu maxG h * (h / numWorkers cpu maxG h) := by
      obtain ⟨m, hm⟩ : ∃ m, numWorkers cpu maxG h = m + 1 :=
        ⟨numWorkers cpu maxG h - 1, by omega⟩
      rw [hm]
      simp [Nat.succ_mul]
    rw [hlast]
    generalize hQ : h / numWorkers cpu maxG h = Q at e1 e2 ⊢
    generalize hA : (numWorkers cpu maxG h - 1) * Q = A at e2 ⊢
    generalize hB : numWorkers cpu maxG h * Q = B at e1 e2
    generalize hM : h % numWorkers cpu maxG h = M at e1 ⊢
    omega
  · have hnd : ((List.range (numWorkers cpu maxG h)).flatMap
        (fun i => List.range' (workerStart (h / numWorkers cpu maxG h) i)
          (stripLen h (numWorkers cpu maxG h) (h / numWorkers cpu maxG h) i))).Nodup := by
      rw [hjoin]
      exact List.nodup_range h
    exact (List.nodup_flatMap.1 hnd).2

/-- C4 witness: with 6 hardware threads, configured maximum 4 and 10
rows, the four strips concatenate to exactly the rows 0 … 9. -/
theorem parallel_strip_partition_witness :
    ((1 : Nat) ≤ 6 ∧ (1 : Nat) ≤ 10) ∧
    ((List.range (numWorkers 6 4 10)).flatMap
        (fun i => List.range' (workerStart (10 / numWorkers 6 4 10) i)
          (stripLen 10 (numWorkers 6 4 10) (10 / numWorkers 6 4 10) i)) =
      List.range 10) :=
  ⟨⟨by decide, by decide⟩,
    (parallel_strip_partition 6 10 4 (by decide) (by decide)).2.2.2.2.2.1⟩

/-- C5: for a Ready processor and positive requested dimensions, a crop
whose rectangle lies inside the source bounds yields a fresh buffer of
exactly `w × h` pixels whose pixel `(0,0)` is the source pixel `(x,y)`
component-wise including alpha; a rectangle extending past any edge
latches the out-of-bounds error and allocates nothing. -/
theorem crop_spec (hp : List Buf) (p : Proc) (i : Nat) (b : Buf) (x y w h : Int)
    (herr : p.err = none) (hbi : p.bufIdx = some i) (hb : hp.getD i emptyBuf = b)
    (hw : 0 < w) (hh : 0 < h) :
    ((0 ≤ x ∧ 0 ≤ y ∧ x + w ≤ (b.width : Int) ∧ y + h ≤ (b.height : Int)) →
      cropGo hp p x y w h =
        (hp ++ [cropBuf b x y w.toNat h.toNat],
          { p with bufIdx := some hp.length }) ∧
      (cropBuf b x y w.toNat h.toNat).width = w.toNat ∧
      (cropBuf b x y w.toNat h.toNat).height = h.toNat ∧
      (cropBuf b x y w.toNat h.toNat).pix.length = w.toNat * h.toNat ∧
      (cropBuf b x y w.toNat h.toNat).pixAt 0 0 = b.pixAt x.toNat y.toNat) ∧
    (¬(0 ≤ x ∧ 0 ≤ y ∧ x + w ≤ (b.width : Int) ∧ y + h ≤ (b.height : Int)) →
      cropGo hp p x y w h =
        (hp, { p with err := some (.cropOutOfBounds x y w h) })) := by
  have hb2 : hp[i]?.getD emptyBuf = b := by
    rw [← List.getD_eq_getElem?_getD]; exact hb
  have hdim : ¬(w ≤ 0 ∨ h ≤ 0) := by omega
  constructor
  · intro hin
    refine ⟨?_, rfl, rfl, by simp [cropBuf], ?_⟩
    · unfold cropGo
      simp [herr, hbi, hb2, hdim, hin]
    · have hwh : 0 < w.toNat * h.toNat :=
        Nat.mul_pos (by omega) (by omega)
      show (cropBuf b x y w.toNat h.toNat).pix.getD
        (0 * (cropBuf b x y w.toNat h.toNat).width + 0) zeroRGBA = _
      rw [List.getD_eq_getElem?_getD]
      simp only [cropBuf, Nat.zero_mul, Nat.zero_add, List.getElem?_map,
        List.getElem?_range hwh]
      simp
  · intro hout
    unfold cropGo
    simp [herr, hbi, hb2, hdim, hout]

/-- C5 witness: cropping the right 1×2 column of a concrete 2×2
buffer succeeds with the expected fresh buffer, and the crop's pixel
(0,0) is the source pixel (1,0). -/
theorem crop_spec_witness :
    cropGo [⟨2, 2, [⟨1, 1, 1, 1⟩, ⟨2, 2, 2, 2⟩, ⟨3, 3, 3, 3⟩, ⟨4, 4, 4, 4⟩]⟩]
        ⟨some 0, none, zeroPerfOpts⟩ 1 0 1 2 =
      ([⟨2, 2, [⟨1, 1, 1, 1⟩, ⟨2, 2, 2, 2⟩, ⟨3, 3, 3, 3⟩, ⟨4, 4, 4, 4⟩]⟩,
          cropBuf ⟨2, 2, [⟨1, 1, 1, 1⟩, ⟨2, 2, 2, 2⟩, ⟨3, 3, 3, 3⟩, ⟨4, 4, 4, 4⟩]⟩
            1 0 (1 : Int).toNat (2 : Int).toNat],
        ⟨some 1, none, zeroPerfOpts⟩) ∧
    (cropBuf ⟨2, 2, [⟨1, 1, 1, 1⟩, ⟨2, 2, 2, 2⟩, ⟨3, 3, 3, 3⟩, ⟨4, 4, 4, 4⟩]⟩
        1 0 (1 : Int).toNat (2 : Int).toNat).pixAt 0 0 =
      (⟨2, 2, [⟨1, 1, 1, 1⟩, ⟨2, 2, 2, 2⟩, ⟨3, 3, 3, 3⟩, ⟨4, 4, 4, 4⟩]⟩ : Buf).pixAt
        (1 : Int).toNat (0 : Int).toNat := by
  have hcs := crop_spec
    [⟨2, 2, [⟨1, 1, 1, 1⟩, ⟨2, 2, 2, 2⟩, ⟨3, 3, 3, 3⟩, ⟨4, 4, 4, 4⟩]⟩]
    ⟨some 0, none, zeroPerfOpts⟩ 0
    ⟨2, 2, [⟨1, 1, 1, 1⟩, ⟨2, 2, 2, 2⟩, ⟨3, 3, 3, 3⟩, ⟨4, 4, 4, 4⟩]⟩
    1 0 1 2 rfl rfl (by decide) (by decide) (by decide)
  have h1 := hcs.1 (by decide)
  exact ⟨h1.1, h1.2.2.2.2⟩

set_option maxRecDepth 400000 in
/-- C6 counterexample: grayscale is not idempotent.  The 1×1 source
pixel `(0,0,70)` maps to gray value `5` (the float value `5.054` is
truncated), but a second application maps `(5,5,5)` to `4`, because
the binary64 sum `0.2126*5 + 0.7152*5 + 0.0722*5` is slightly below
`5` and the `uint8` conversion truncates — the luminosity formula is
not stable on already-gray pixels under truncation. -/
theorem grayscale_idempotence_counterexample :
    grayscaleBuf (grayscaleBuf ⟨1, 1, [⟨0, 0, 70, 3⟩]⟩) ≠
      grayscaleBuf ⟨1, 1, [⟨0, 0, 70, 3⟩]⟩ ∧
    grayscaleBuf ⟨1, 1, [⟨0, 0, 70, 3⟩]⟩ = ⟨1, 1, [⟨5, 5, 5, 3⟩]⟩ ∧
    grayscaleBuf (grayscaleBuf ⟨1, 1, [⟨0, 0, 70, 3⟩]⟩) = ⟨1, 1, [⟨4, 4, 4, 3⟩]⟩ := by
  decide

/-- C6 (amended): applying Grayscale twice is not pixel-identical to
applying it once.  What does hold: the second application applies the
same kernel to the once-grayed pixel, alpha is preserved, and for
every pixel whose once-applied gray value `v` is a byte (always true
of the Go buffers, whose samples are `uint8`), the twice-applied value
is `grayLum v v v`, which is `v` or `v - 1` — the formula maps an
already-gray pixel to its value or to one less, never anything else. -/
theorem grayscale_twice_characterization (src : Buf) (x y : Nat)
    (hx : x < src.width) (hy : y < src.height)
    (hv : ((grayscaleBuf src).pixAt x y).r < 256) :
    (grayscaleBuf (grayscaleBuf src)).pixAt x y =
      grayPixel ((grayscaleBuf src).pixAt x y) ∧
    ((grayscaleBuf (grayscaleBuf src)).pixAt x y).a =
      ((grayscaleBuf src).pixAt x y).a ∧
    ((grayscaleBuf (grayscaleBuf src)).pixAt x y).r ≤
      ((grayscaleBuf src).pixAt x y).r ∧
    ((grayscaleBuf src).pixAt x y).r ≤
      ((grayscaleBuf (grayscaleBuf src)).pixAt x y).r + 1 := by
  have h2 : (grayscaleBuf (grayscaleBuf src)).pixAt x y =
      grayPixel ((grayscaleBuf src).pixAt x y) :=
    grayscaleBuf_pixAt (grayscaleBuf src) x y hx hy
  have h1 : (grayscaleBuf src).pixAt x y = grayPixel (src.pixAt x y) :=
    grayscaleBuf_pixAt src x y hx hy
  have hdiag := grayDiagonalBall (grayLum (src.pixAt x y).r (src.pixAt x y).g
    (src.pixAt x y).b) (by rw [h1] at hv; exact hv)
  refine ⟨h2, ?_, ?_, ?_⟩
  · rw [h2, h1]; rfl
  · rw [h2, h1]
    exact hdiag.1
  · rw [h2, h1]
    exact hdiag.2

set_option maxRecDepth 400000 in
/-- C6 witness: the twice-characterisation at the concrete pixel
`(0,0,70)`: the second pass drops the gray value from 5 to 4, inside
the proved `v-1 ≤ … ≤ v` corridor. -/
theorem grayscale_twice_characterization_witness :
    ((0 : Nat) < 1 ∧ (0 : Nat) < 1 ∧
      ((grayscaleBuf ⟨1, 1, [⟨10, 20, 30, 8⟩]⟩).pixAt 0 0).r < 256) ∧
    (grayscaleBuf (grayscaleBuf ⟨1, 1, [⟨10, 20, 30, 8⟩]⟩)).pixAt 0 0 =
      grayPixel ((grayscaleBuf ⟨1, 1, [⟨10, 20, 30, 8⟩]⟩).pixAt 0 0) :=
  ⟨⟨by decide, by decide, by decide⟩,
    (grayscale_twice_characterization ⟨1, 1, [⟨10, 20, 30, 8⟩]⟩ 0 0
      (by decide) (by decide) (by decide)).1⟩

/-- C7: on a Ready processor, Crop and Resize called with non-positive
width or height latch the invalid-dimensions error and leave the heap
and the observable buffer exactly as before the call. -/
theorem invalid_dims_atomicity (cb : Collab) (hp : List Buf) (p : Proc)
    (x y w h : Int) (herr : p.err = none) (hdim : w ≤ 0 ∨ h ≤ 0) :
    cropGo hp p x y w h = (hp, { p with err := some (.cropInvalidDims w h) }) ∧
    resizeGo cb hp p w h = (hp, { p with err := some (.resizeInvalidDims w h) }) ∧
    obsBuf (cropGo hp p x y w h).1 (cropGo hp p x y w h).2 = obsBuf hp p ∧
    obsBuf (resizeGo cb hp p w h).1 (resizeGo cb hp p w h).2 = obsBuf hp p := by
  have hc : cropGo hp p x y w h = (hp, { p with err := some (.cropInvalidDims w h) }) := by
    unfold cropGo
    simp [herr, hdim]
  have hr : resizeGo cb hp p w h = (hp, { p with err := some (.resizeInvalidDims w h) }) := by
    unfold resizeGo
    simp [herr, hdim]
  refine ⟨hc, hr, ?_, ?_⟩
  · rw [hc]; rfl
  · rw [hr]; rfl

/-- C7 witness: a zero-width crop and resize on a concrete Ready
processor latch the error and keep the observable buffer. -/
theorem invalid_dims_atomicity_witness :
    (⟨some 0, none, zeroPerfOpts⟩ : Proc).err = none ∧
    ((0 : Int) ≤ 0 ∨ (2 : Int) ≤ 0) ∧
    cropGo [⟨1, 1, [⟨6, 6, 6, 6⟩]⟩] ⟨some 0, none, zeroPerfOpts⟩ 0 0 0 2 =
      ([⟨1, 1, [⟨6, 6, 6, 6⟩]⟩],
        ⟨some 0, some (.cropInvalidDims 0 2), zeroPerfOpts⟩) :=
  ⟨rfl, Or.inl (by decide),
    (invalid_dims_atomicity ⟨fun _ _ _ => [], true, true, fun _ _ => []⟩
      [⟨1, 1, [⟨6, 6, 6, 6⟩]⟩] ⟨some 0, none, zeroPerfOpts⟩ 0 0 0 2
      rfl (Or.inl (by decide))).1⟩

/-- C8: Clone returns a new processor with the same buffer reference,
the same latched error and the same performance configuration, and any
write operation applied to either of the two processors leaves the
other's observable buffer (and, the records being separate, its error
and configuration) unchanged: operations only ever append fresh
buffers to the heap, never mutate the shared one. -/
theorem clone_independence (cb : Collab) (cpu : Nat) (hp : List Buf) (p : Proc)
    (op : OpCall) (i : Nat) (hbi : p.bufIdx = some i) (hlen : i < hp.length) :
    cloneGo p = ⟨p.bufIdx, p.err, p.perfOpts⟩ ∧
    obsBuf (stepH cb cpu hp p op).1 (cloneGo p) = obsBuf hp (cloneGo p) ∧
    obsBuf hp (cloneGo p) = obsBuf hp p ∧
    obsBuf (stepH cb cpu hp (cloneGo p) op).1 p = obsBuf hp p := by
  refine ⟨rfl, ?_, rfl, ?_⟩
  · obtain ⟨t, ht⟩ := stepH_heap cb cpu hp p op
    rw [ht]
    unfold obsBuf cloneGo
    simp only [hbi]
    show some ((hp ++ t).getD i emptyBuf) = some (hp.getD i emptyBuf)
    rw [List.getD_append _ _ _ _ hlen]
  · obtain ⟨t, ht⟩ := stepH_heap cb cpu hp (cloneGo p) op
    rw [ht]
    unfold obsBuf
    simp only [hbi]
    show some ((hp ++ t).getD i emptyBuf) = some (hp.getD i emptyBuf)
    rw [List.getD_append _ _ _ _ hlen]

/-- C8 witness: clone equality and observable-buffer stability under a
concrete grayscale write. -/
theorem clone_independence_witness :
    (⟨some 0, none, zeroPerfOpts⟩ : Proc).bufIdx = some 0 ∧
    (0 : Nat) < 1 ∧
    obsBuf (stepH ⟨fun _ _ _ => [], true, true, fun _ _ => []⟩ 1
        [⟨1, 1, [⟨7, 7, 7, 7⟩]⟩] ⟨some 0, none, zeroPerfOpts⟩ .gray).1
        (cloneGo ⟨some 0, none, zeroPerfOpts⟩) =
      obsBuf [⟨1, 1, [⟨7, 7, 7, 7⟩]⟩] (cloneGo ⟨some 0, none, zeroPerfOpts⟩) :=
  ⟨rfl, by decide,
    (clone_independence ⟨fun _ _ _ => [], true, true, fun _ _ => []⟩ 1
      [⟨1, 1, [⟨7, 7, 7, 7⟩]⟩] ⟨some 0, none, zeroPerfOpts⟩ .gray 0
      rfl (by decide)).2.1⟩

theorem toBytesGo_ready (hp : List Buf) (p : Proc) (i : Nat) (fm : Int)
    (hn : p.err = none) (hb : p.bufIdx = some i) :
    toBytesGo hp p fm =
      match encodeImage fm (hp.getD i emptyBuf) with
      | .ok bs => .ok bs
      | .error e => .error (.encodeFailed e) := by
  unfold toBytesGo
  simp [hn, hb, List.getD_eq_getElem?_getD]

/-- C9 counterexample: PNG is a format with an encoder, yet on the
Ready processor holding the empty 0×0 buffer (reachable:
`New(image.NewRGBA(image.Rect(0,0,0,0)))` is Ready) ToBytes returns an
error — `png.Encode` rejects a zero dimension with its invalid-size
error, wrapped in the failed-to-encode context.  So ToBytes does not
return an error exactly when the format has no encoder. -/
theorem toBytes_encoder_error_counterexample :
    (⟨some 0, none, zeroPerfOpts⟩ : Proc).err = none ∧
    (⟨some 0, none, zeroPerfOpts⟩ : Proc).bufIdx = some 0 ∧
    toBytesGo [⟨0, 0, []⟩] ⟨some 0, none, zeroPerfOpts⟩ FormatPNG =
      .error (.encodeFailed (.pngInvalidSize 0 0)) :=
  ⟨rfl, rfl, rfl⟩

/-- C9 (amended): ToBytes returns the latched error unchanged when the
processor is Failed (no encoding is attempted — the result is the
latched error itself, not a wrapped one).  On a Ready processor with a
buffer it succeeds for the JPEG tag when both dimensions are below
65536 and fails with the wrapped too-large error otherwise; it
succeeds for the PNG tag when both dimensions are positive and below
2^32 and fails with the wrapped invalid-size error otherwise; and for
every other tag — the GIF tag and all remaining values including the
unknown tag — it fails with the wrapped no-encoder error.  Every
encode failure is wrapped in the failed-to-encode context. -/
theorem toBytes_error_contract (hp : List Buf) (p : Proc) (fm : Int) :
    (∀ e, p.err = some e → toBytesGo hp p fm = .error e) ∧
    (p.err = none → ∀ i, p.bufIdx = some i →
      (fm = FormatJPEG →
        (((hp.getD i emptyBuf).width < 65536 ∧ (hp.getD i emptyBuf).height < 65536) →
          toBytesGo hp p fm = .ok (.jpegBytes (hp.getD i emptyBuf))) ∧
        (¬((hp.getD i emptyBuf).width < 65536 ∧ (hp.getD i emptyBuf).height < 65536) →
          toBytesGo hp p fm = .error (.encodeFailed .jpegTooLarge))) ∧
      (fm = FormatPNG →
        ((0 < (hp.getD i emptyBuf).width ∧ 0 < (hp.getD i emptyBuf).height ∧
            (hp.getD i emptyBuf).width < 4294967296 ∧
            (hp.getD i emptyBuf).height < 4294967296) →
          toBytesGo hp p fm = .ok (.pngBytes (hp.getD i emptyBuf))) ∧
        (¬(0 < (hp.getD i emptyBuf).width ∧ 0 < (hp.getD i emptyBuf).height ∧
            (hp.getD i emptyBuf).width < 4294967296 ∧
            (hp.getD i emptyBuf).height < 4294967296) →
          toBytesGo hp p fm = .error (.encodeFailed
            (.pngInvalidSize (hp.getD i emptyBuf).width (hp.getD i emptyBuf).height)))) ∧
      (fm ≠ FormatJPEG → fm ≠ FormatPNG →
        toBytesGo hp p fm = .error (.encodeFailed
          (if fm = FormatGIF then .gifEncodeUnsupported
           else .unsupportedFormat fm)))) := by
  constructor
  · intro e he
    unfold toBytesGo
    simp [he]
  · intro hn i hb
    refine ⟨?_, ?_, ?_⟩
    · rintro rfl
      rw [toBytesGo_ready hp p i FormatJPEG hn hb]
      unfold encodeImage
      rw [if_pos rfl]
      constructor
      · intro hsz
        rw [if_neg (show ¬(65536 ≤ (hp.getD i emptyBuf).width ∨
            65536 ≤ (hp.getD i emptyBuf).height) by omega)]
      · intro hsz
        rw [if_pos (show 65536 ≤ (hp.getD i emptyBuf).width ∨
            65536 ≤ (hp.getD i emptyBuf).height by omega)]
    · rintro rfl
      rw [toBytesGo_ready hp p i FormatPNG hn hb]
      unfold encodeImage
      rw [if_neg (show ¬(FormatPNG = FormatJPEG) by decide), if_pos rfl]
      constructor
      · intro hsz
        rw [if_neg (show ¬((hp.getD i emptyBuf).width = 0 ∨
            (hp.getD i emptyBuf).height = 0 ∨
            4294967296 ≤ (hp.getD i emptyBuf).width ∨
            4294967296 ≤ (hp.getD i emptyBuf).height) by omega)]
      · intro hsz
        rw [if_pos (show (hp.getD i emptyBuf).width = 0 ∨
            (hp.getD i emptyBuf).height = 0 ∨
            4294967296 ≤ (hp.getD i emptyBuf).width ∨
            4294967296 ≤ (hp.getD i emptyBuf).height by omega)]
    · intro h1 h2
      rw [toBytesGo_ready hp p i fm hn hb]
      have h1n : fm ≠ 1 := h1
      have h2n : fm ≠ 2 := h2
      by_cases h3 : fm = (3 : Int) <;>
        simp [encodeImage, h1n, h2n, h3, FormatJPEG, FormatPNG, FormatGIF]

/-- C9 witness: on a concrete Ready processor with a 1×1 buffer, a PNG
encode request succeeds and a GIF encode request fails with the
wrapped GIF error. -/
theorem toBytes_error_contract_witness :
    (⟨some 0, none, zeroPerfOpts⟩ : Proc).err = none ∧
    (⟨some 0, none, zeroPerfOpts⟩ : Proc).bufIdx = some 0 ∧
    FormatGIF ≠ FormatJPEG ∧ FormatGIF ≠ FormatPNG ∧
    toBytesGo [⟨1, 1, [⟨8, 8, 8, 8⟩]⟩] ⟨some 0, none, zeroPerfOpts⟩ FormatPNG =
      .ok (.pngBytes (([⟨1, 1, [⟨8, 8, 8, 8⟩]⟩] : List Buf).getD 0 emptyBuf)) ∧
    toBytesGo [⟨1, 1, [⟨8, 8, 8, 8⟩]⟩] ⟨some 0, none, zeroPerfOpts⟩ FormatGIF =
      .error (.encodeFailed .gifEncodeUnsupported) :=
  ⟨rfl, rfl, by decide, by decide,
    (((toBytes_error_contract [⟨1, 1, [⟨8, 8, 8, 8⟩]⟩]
      ⟨some 0, none, zeroPerfOpts⟩ FormatPNG).2 rfl 0 rfl).2.1 rfl).1
      (by decide),
    by
      have h := (((toBytes_error_contract [⟨1, 1, [⟨8, 8, 8, 8⟩]⟩]
        ⟨some 0, none, zeroPerfOpts⟩ FormatGIF).2 rfl 0 rfl).2.2
        (by decide) (by decide))
      simpa using h⟩

/-- C10: every processor reachable through the constructors and any
sequence of operations satisfies: if the latched error is nil the
current image reference is non-nil, and the accessor `Image` never
returns a nil image together with a nil error. -/
theorem ready_implies_image_invariant (cpu : Nat) (hp : List Buf) (p : Proc)
    (hr : Reach cpu hp p) :
    (p.err = none → ∃ i, p.bufIdx = some i) ∧
    ((imageGo hp p).2 = none → (imageGo hp p).1 ≠ none) := by
  have inv : p.err = none → ∃ i, p.bufIdx = some i := by
    induction hr with
    | mkNew hp img =>
      cases img <;> simp [newGo]
    | mkNewPerf hp img opts =>
      cases img <;> simp [newWithPerfGo]
    | mkFromBytes hp dataLen dec =>
      unfold fromBytesGo
      split_ifs <;> cases dec <;> simp
    | setPerf hp p opts hr ih =>
      exact fun he => ih he
    | clone hp p hr ih =>
      exact fun he => ih he
    | step cb hp p op hr ih =>
      exact stepH_invariant cb cpu hp p op ih
  refine ⟨inv, fun h2 => ?_⟩
  obtain ⟨i, hi⟩ := inv h2
  simp [imageGo, obsBuf, hi]

/-- C10 witness: the invariant at the state freshly constructed by
`New` on a 1×1 buffer. -/
theorem ready_implies_image_invariant_witness :
    ((newGo 1 [] (some ⟨1, 1, [⟨2, 2, 2, 2⟩]⟩)).2.err = none →
      ∃ i, (newGo 1 [] (some ⟨1, 1, [⟨2, 2, 2, 2⟩]⟩)).2.bufIdx = some i) ∧
    ((imageGo (newGo 1 [] (some ⟨1, 1, [⟨2, 2, 2, 2⟩]⟩)).1
        (newGo 1 [] (some ⟨1, 1, [⟨2, 2, 2, 2⟩]⟩)).2).2 = none →
      (imageGo (newGo 1 [] (some ⟨1, 1, [⟨2, 2, 2, 2⟩]⟩)).1
        (newGo 1 [] (some ⟨1, 1, [⟨2, 2, 2, 2⟩]⟩)).2).1 ≠ none) :=
  ready_implies_image_invariant 1 _ _
    (Reach.mkNew [] (some ⟨1, 1, [⟨2, 2, 2, 2⟩]⟩))
